import Mathlib

/-!
Shallow embedding of the GraphStudio ChatPanel services in Lean 4:
the SSE stream parser (`src/panels/ChatPanel/utils/streamParser.js`),
the MCP orchestrator (`mcpOrchestrator.js`), the AI client error handling
(`aiClient.js`) and the conversation controller (`useChat.js`).

JavaScript conventions mapped here:
  * string fields that the code tests for truthiness (`if (chunk.content)`)
    are modelled as `String` where `""` stands for both the empty string and
    an absent field — the code treats the two identically;
  * a JS object keyed by numeric indices (`toolCallsBuffer`) is modelled as an
    association list `List (Nat × _)` kept in ascending key order, matching
    the enumeration order of integer-like keys that `Object.keys` /
    `Object.values` guarantee;
  * a thrown exception is modelled as `Except.error`;
  * the environment builtins `JSON.parse` / `JSON.stringify` are passed in as
    function parameters, since they are not source of this repository.
-/

namespace GraphStudio

set_option autoImplicit false

/-! ## Stream parser (`streamParser.js`) -/

/-- One accumulated tool call in `toolCallsBuffer`:
`{ id, type: 'function', function: { name, arguments } }`. -/
structure ToolEntry where
  id : String
  type : String
  name : String
  arguments : String
  deriving Repr, DecidableEq

/-- One element of a chunk's `tool_calls` array (OpenAI indexed encoding).
`fname`/`farguments` model `toolCall.function?.name` / `...?.arguments`,
with `""` for an absent field (the code only ever tests them for truthiness
or feeds them through `|| ''`). -/
structure ToolCallFragment where
  index : Nat
  id : String
  fname : String
  farguments : String
  deriving Repr, DecidableEq

/-- `chunk.tool_call_start` payload (Anthropic encoding): `{ id, name }`. -/
structure ToolStart where
  id : String
  name : String
  deriving Repr, DecidableEq

/-- A parsed stream chunk, covering the fields `processChunk` reads. -/
structure Chunk where
  content : String := ""
  tool_calls : List ToolCallFragment := []
  tool_call_start : Option ToolStart := none
  tool_input_delta : String := ""
  finish_reason : String := ""
  deriving Repr, DecidableEq

/-- The `toolCallsBuffer` object: integer keys in ascending order. -/
abbrev ToolBuffer := List (Nat × ToolEntry)

/-- `this.toolCallsBuffer[index]` as a read. -/
def bufferLookup : ToolBuffer → Nat → Option ToolEntry
  | [], _ => none
  | (k, v) :: rest, i => if i = k then some v else bufferLookup rest i

/-- `this.toolCallsBuffer[index] = e`: write at an integer key, keeping the
ascending enumeration order of JS integer-keyed objects. -/
def bufferInsert : ToolBuffer → Nat → ToolEntry → ToolBuffer
  | [], i, e => [(i, e)]
  | (k, v) :: rest, i, e =>
    if i < k then (i, e) :: (k, v) :: rest
    else if i = k then (i, e) :: rest
    else (k, v) :: bufferInsert rest i e

/-- The body of the `for (const toolCall of chunk.tool_calls)` loop in
`StreamParser.processChunk` (streamParser.js lines 48–85): create the entry if
missing, merge the name under the non-destructive rule, append arguments,
refresh the id. -/
def applyToolCallFragment (buf : ToolBuffer) (tc : ToolCallFragment) : ToolBuffer :=
  let e0 : ToolEntry :=
    match bufferLookup buf tc.index with
    | some e => e
    | none => { id := tc.id, type := "function", name := tc.fname, arguments := "" }
  let e1 : ToolEntry :=
    if tc.fname ≠ "" ∧ (e0.name = "" ∨ (tc.fname ≠ e0.name ∧ e0.name.length ≤ tc.fname.length))
    then { e0 with name := tc.fname } else e0
  let e2 : ToolEntry :=
    if tc.farguments ≠ "" then { e1 with arguments := e1.arguments ++ tc.farguments } else e1
  let e3 : ToolEntry :=
    if tc.id ≠ "" then { e2 with id := tc.id } else e2
  bufferInsert buf tc.index e3

/-- `StreamParser` instance state. -/
structure ParserState where
  contentBuffer : String
  toolCallsBuffer : ToolBuffer
  finishReason : String
  deriving Repr, DecidableEq

/-- Fresh parser / `reset()`. -/
def initParserState : ParserState :=
  { contentBuffer := "", toolCallsBuffer := [], finishReason := "" }

/-- `StreamParser.processChunk` (streamParser.js lines 32–123), restricted to
its effect on the parser state.  The only runtime error the body can raise is
the unguarded member access `this.toolCallsBuffer[lastIndex].function` in the
`tool_input_delta` branch when the computed `lastIndex` is not a present key
(possible only with sparse indexed keys); this is modelled as `Except.error`. -/
def processChunk (s : ParserState) (c : Chunk) : Except String ParserState :=
  let s := if c.content ≠ "" then { s with contentBuffer := s.contentBuffer ++ c.content } else s
  let s := { s with toolCallsBuffer := c.tool_calls.foldl applyToolCallFragment s.toolCallsBuffer }
  let s :=
    match c.tool_call_start with
    | some st =>
      let fresh : ToolEntry := { id := st.id, type := "function", name := st.name, arguments := "" }
      { s with toolCallsBuffer := bufferInsert s.toolCallsBuffer s.toolCallsBuffer.length fresh }
    | none => s
  let step :
      Except String ParserState :=
    if c.tool_input_delta ≠ "" then
      if 0 < s.toolCallsBuffer.length then
        let lastIndex := s.toolCallsBuffer.length - 1
        match bufferLookup s.toolCallsBuffer lastIndex with
        | some e =>
          let e2 : ToolEntry := { e with arguments := e.arguments ++ c.tool_input_delta }
          .ok { s with toolCallsBuffer := bufferInsert s.toolCallsBuffer lastIndex e2 }
        | none => .error "TypeError: toolCallsBuffer[lastIndex] is undefined"
      else .ok s
    else .ok s
  match step with
  | .error e => .error e
  | .ok s =>
    .ok (if c.finish_reason ≠ "" then { s with finishReason := c.finish_reason } else s)

/-- Feed a whole chunk sequence through `processChunk`. -/
def runChunks (s : ParserState) : List Chunk → Except String ParserState
  | [] => .ok s
  | c :: rest =>
    match processChunk s c with
    | .ok s2 => runChunks s2 rest
    | .error e => .error e

/-- `StreamParser.getResult` (streamParser.js lines 129–137). -/
structure StreamResult where
  content : String
  toolCalls : Option (List ToolEntry)
  finishReason : String
  deriving Repr, DecidableEq

def getResult (s : ParserState) : StreamResult :=
  let toolCalls := s.toolCallsBuffer.map Prod.snd
  { content := s.contentBuffer
    toolCalls := if 0 < toolCalls.length then some toolCalls else none
    finishReason := s.finishReason }

/-- A chunk that carries only a content fragment. -/
def contentChunk (f : String) : Chunk := { content := f }

/-- A chunk that carries only a `tool_call_start`. -/
def startChunk (st : ToolStart) : Chunk := { tool_call_start := some st }

/-- A chunk that carries only a `tool_input_delta`. -/
def deltaChunk (d : String) : Chunk := { tool_input_delta := d }

/-- Concatenation of fragments in arrival order. -/
def concatAll (l : List String) : String := l.foldl (· ++ ·) ""

/-! ## MCP orchestrator (`mcpOrchestrator.js`)

Type parameters: `σ` is the opaque panel state, `α` the type of parsed JSON
argument objects, `ρ` the type of tool result values. -/

/-- A tool as returned by a panel's `getMCPTools`. -/
structure MCPTool where
  name : String
  description : String
  deriving Repr, DecidableEq

/-- A tool after `collectTools` enrichment: `_panelId`, `_panelTypeId`,
`_panelTitle` routing metadata, the namespaced `name` and `originalName`. -/
structure EnrichedTool where
  name : String
  originalName : String
  description : String
  panelId : String
  panelTypeId : String
  panelTitle : String
  deriving Repr, DecidableEq

/-- A panel instance as stored in the studio store. -/
structure Panel (σ : Type) where
  id : String
  panelTypeId : String
  title : String
  state : σ
  isAIObserving : Bool := false

/-- A panel definition from the registry.  Optional capability methods are
`Option`-valued (the code tests `definition?.getMCPTools` for truthiness);
a rejected promise / thrown exception is `Except.error`.  The state-update
callback passed to `executeMCPTool` mutates the store and does not affect the
value the orchestrator returns, so it is not modelled. -/
structure PanelDefinition (σ α ρ : Type) where
  getMCPTools : Option (σ → Except String (List MCPTool)) := none
  executeMCPTool : Option (String → α → σ → Except String ρ) := none

/-- Enrichment of one tool in `collectTools` (mcpOrchestrator.js lines 121–129). -/
def enrichTool {σ : Type} (panel : Panel σ) (tool : MCPTool) : EnrichedTool :=
  { name := panel.panelTypeId ++ "_" ++ tool.name
    originalName := tool.name
    description := tool.description
    panelId := panel.id
    panelTypeId := panel.panelTypeId
    panelTitle := panel.title }

/-- One iteration of the `for (const panel of panels)` loop of
`MCPOrchestrator.collectTools` (mcpOrchestrator.js lines 112–135): look up the
panel's definition, skip panels without `getMCPTools`, and on an exception
from `getMCPTools` log and contribute nothing for that panel only. -/
def panelTools {σ α ρ : Type} (registry : String → Option (PanelDefinition σ α ρ))
    (panel : Panel σ) : List EnrichedTool :=
  match registry panel.panelTypeId with
  | none => []
  | some d =>
    match d.getMCPTools with
    | none => []
    | some f =>
      match f panel.state with
      | .error _ => []
      | .ok tools => tools.map (enrichTool panel)

/-- `MCPOrchestrator.collectTools` (mcpOrchestrator.js lines 109–144): the
per-panel contributions appended in panel order. -/
def collectTools {σ α ρ : Type} (registry : String → Option (PanelDefinition σ α ρ))
    (panels : List (Panel σ)) : List EnrichedTool :=
  panels.flatMap (panelTools registry)

/-- The `toolCache` built from `allTools.forEach(t => cache.set(t.name, t))`:
`Map.set` overwrites, so for duplicate names the last tool wins. -/
def toolCacheOf (tools : List EnrichedTool) (name : String) : Option EnrichedTool :=
  tools.foldl (fun acc t => if t.name = name then some t else acc) none

/-- The structured result object `executeTool` returns; absent JS fields are
`none`. -/
structure ToolResult (ρ : Type) where
  success : Bool
  error : Option String := none
  result : Option ρ := none
  toolName : Option String := none
  panelTitle : Option String := none
  deriving Repr, DecidableEq

/-- `getPanelDefinition(_panelTypeId)` followed by the
`definition?.executeMCPTool` truthiness test, as in `executeTool`. -/
def resolveExec {σ α ρ : Type} (registry : String → Option (PanelDefinition σ α ρ))
    (panelTypeId : String) : Option (String → α → σ → Except String ρ) :=
  match registry panelTypeId with
  | none => none
  | some d => d.executeMCPTool

/-- `MCPOrchestrator.executeTool` (mcpOrchestrator.js lines 254–310).  Every
failure path returns a structured `{success: false}` object and the executor's
exception is caught, so the function is total (never throws). -/
def executeTool {σ α ρ : Type} (registry : String → Option (PanelDefinition σ α ρ))
    (toolCache : String → Option EnrichedTool) (storePanels : List (Panel σ))
    (toolName : String) (args : α) : ToolResult ρ :=
  match toolCache toolName with
  | none => { success := false, error := some ("Unknown tool: " ++ toolName) }
  | some tool =>
    match resolveExec registry tool.panelTypeId with
    | none =>
      { success := false
        error := some ("Panel " ++ tool.panelTypeId ++ " does not support tool execution") }
    | some exec =>
      match storePanels.find? (fun p => p.id = tool.panelId) with
      | none => { success := false, error := some ("Panel " ++ tool.panelId ++ " not found") }
      | some panel =>
        match exec tool.originalName args panel.state with
        | .ok r =>
          { success := true, result := some r, toolName := some toolName
            panelTitle := some panel.title }
        | .error msg =>
          { success := false, error := some msg, toolName := some toolName }

/-- The `arguments` field of an AI tool call: either raw JSON text or an
already-parsed object (`typeof call.function.arguments === 'string'` test). -/
inductive ArgText (α : Type) where
  | str (s : String)
  | obj (a : α)
  deriving Repr, DecidableEq

/-- `call.function` of a tool call message; `parsedArguments` is the extra
field `handleToolCalls` adds. -/
structure CallFn (α : Type) where
  name : String
  arguments : ArgText α
  parsedArguments : Option α := none
  deriving Repr, DecidableEq

/-- A tool call message from the AI response. -/
structure ToolCallMsg (α : Type) where
  id : String
  function : CallFn α
  deriving Repr, DecidableEq

/-- One entry of the `results` array of `processToolCalls`:
`{ toolCallId, name, ...result }`. -/
structure ToolCallRecord (ρ : Type) where
  toolCallId : String
  name : String
  result : ToolResult ρ
  deriving Repr, DecidableEq

/-- The per-call pre-parse in `useChat.handleToolCalls` (useChat.js): parse the
raw argument string, catching a parse failure and leaving `args = {}`
(`defaultArgs`); the raw `arguments` string itself is kept unchanged. -/
def preParseToolCall {α : Type} (parseJson : String → Except String α) (defaultArgs : α)
    (tc : ToolCallMsg α) : ToolCallMsg α :=
  let args : α :=
    match tc.function.arguments with
    | .str s =>
      match parseJson s with
      | .ok a => a
      | .error _ => defaultArgs
    | .obj a => a
  { tc with function := { tc.function with parsedArguments := some args } }

/-- `MCPOrchestrator.processToolCalls` (mcpOrchestrator.js lines 317–335).
The argument text of each call is fed through an UNGUARDED `JSON.parse`
(`parseJson`); a parse failure therefore propagates as a thrown exception
(`Except.error`), aborting the loop. -/
def processToolCalls {σ α ρ : Type} (parseJson : String → Except String α)
    (registry : String → Option (PanelDefinition σ α ρ))
    (toolCache : String → Option EnrichedTool) (storePanels : List (Panel σ)) :
    List (ToolCallMsg α) → Except String (List (ToolCallRecord ρ))
  | [] => .ok []
  | call :: rest =>
    let argsE : Except String α :=
      match call.function.arguments with
      | .str s => parseJson s
      | .obj a => .ok a
    match argsE with
    | .error e => .error e
    | .ok args =>
      let result := executeTool registry toolCache storePanels call.function.name args
      match processToolCalls parseJson registry toolCache storePanels rest with
      | .error e => .error e
      | .ok restResults =>
        .ok ({ toolCallId := call.id, name := call.function.name, result := result } :: restResults)

/-! ## System prompt generation (`MCPOrchestrator.generateSystemPrompt`) -/

/-- `s.slice(0, n)`: the first `n` units of the string. -/
def jsSlice (s : String) (n : Nat) : String := ⟨s.data.take n⟩

/-- `panel.context` of an observed panel: `{ type, data }` where `data` is
either string-typed, object-typed (its `JSON.stringify(·, null, 2)` rendering
is produced by the `stringify` builtin parameter), or absent. -/
inductive CtxData (γ : Type) where
  | strData (s : String)
  | objData (j : γ)
  | absent

structure PanelContext (γ : Type) where
  type : String
  data : CtxData γ

/-- One element of `context.observedPanels` built by `buildContext`. -/
structure ObservedPanel (γ : Type) where
  panelId : String
  panelType : String
  panelTitle : String
  context : Option (PanelContext γ)

/-- The dump lines rendered for one observed panel's context data
(mcpOrchestrator.js lines 209–219): the three-way branch with the per-panel
`slice(0, 2000)` hard cap. -/
def panelContextBody {γ : Type} (stringify : γ → String) :
    Option (PanelContext γ) → List String
  | some c =>
    if c.type = "empty" then ["- Empty or minimal content"]
    else
      match c.data with
      | .strData s => ["```", jsSlice s 2000, "```"]
      | .objData j => ["```json", jsSlice (stringify j) 2000, "```"]
      | .absent => []
  | none => []

/-- The lines pushed for one observed panel in the
`for (const panel of context.observedPanels)` loop: heading, context dump,
trailing blank line. -/
def observedPanelParts {γ : Type} (stringify : γ → String) (p : ObservedPanel γ) :
    List String :=
  ("### " ++ p.panelTitle ++ " (" ++ p.panelType ++ ")") ::
    panelContextBody stringify p.context ++ [""]

/-- The lines pushed for one available tool. -/
def toolParts (t : EnrichedTool) : List String :=
  ("- **" ++ t.name ++ "**: " ++ t.description) ::
    (if t.panelTitle ≠ "" then ["  - Source: " ++ t.panelTitle] else [])

/-- The full `parts` array of `generateSystemPrompt`
(mcpOrchestrator.js lines 189–245). -/
def promptParts {γ : Type} (stringify : γ → String) (observedPanels : List (ObservedPanel γ))
    (tools : List EnrichedTool) : List String :=
  ["You are an AI assistant integrated into Nexus GraphStudio, a multi-panel IDE for graphical authoring.",
   "",
   "## Your Capabilities",
   "- You can observe and understand the content of panels that users have enabled AI observation for.",
   "- You can execute tools to modify panels, create content, and perform actions.",
   "- You should be helpful, concise, and focused on the user\x27s creative workflow.",
   ""]
  ++ (if 0 < observedPanels.length then
        ["## Currently Observed Panels",
         "The following panels are being observed (you can see their content):",
         ""] ++ observedPanels.flatMap (observedPanelParts stringify)
      else [])
  ++ (if 0 < tools.length then
        ["## Available Tools", "You have access to the following tools:", ""]
          ++ tools.flatMap toolParts ++ [""]
      else [])
  ++ ["## Guidelines",
      "- Be concise and helpful",
      "- When users ask you to modify a panel, use the appropriate tool",
      "- If you need more context, ask the user to enable AI observation on relevant panels",
      "- Always explain what you\x27re doing when using tools"]

/-- `MCPOrchestrator.generateSystemPrompt`: `parts.join('\n')`. -/
def generateSystemPrompt {γ : Type} (stringify : γ → String)
    (observedPanels : List (ObservedPanel γ)) (tools : List EnrichedTool) : String :=
  String.intercalate "\n" (promptParts stringify observedPanels tools)

/-! ## Conversation controller (`useChat.js`) and client abort handling
(`aiClient.js`) -/

/-- A conversation message, with the fields the controller's list operations
read or write.  Generated ids and timestamps are not modelled: no claim
depends on them. -/
structure Message where
  role : String
  content : String
  attachments : List String := []
  isStreaming : Bool := false
  isError : Bool := false
  deriving Repr, DecidableEq

/-- The `updates` object passed to `updateLastMessage`; `none` fields are
absent from the object, so the spread `{...last, ...updates}` keeps the old
value. -/
structure MessageUpdate where
  content : Option String := none
  isStreaming : Option Bool := none
  isError : Option Bool := none
  deriving Repr, DecidableEq

/-- `{...last, ...updates}`. -/
def applyMessageUpdate (m : Message) (u : MessageUpdate) : Message :=
  { m with
    content := u.content.getD m.content
    isStreaming := u.isStreaming.getD m.isStreaming
    isError := u.isError.getD m.isError }

/-- `updateLastMessage` (useChat.js lines 646–658): replace the last message
of a non-empty list by its updated copy; no-op on an empty list. -/
def updateLastMessageList (u : MessageUpdate) : List Message → List Message
  | [] => []
  | [m] => [applyMessageUpdate m u]
  | m :: m2 :: rest => m :: updateLastMessageList u (m2 :: rest)

/-- The controller state tracked by `useChat`:
`messages`, `isLoading`, `error`. -/
structure ChatState where
  messages : List Message
  isLoading : Bool := false
  error : Option String := none
  deriving Repr, DecidableEq

/-- The JS builtin `String.prototype.trim`: strip leading and trailing
whitespace. -/
def jsTrim (s : String) : String :=
  ⟨((s.data.dropWhile Char.isWhitespace).reverse.dropWhile Char.isWhitespace).reverse⟩

/-- `createUserMessage` (messageUtils.js), minus id and timestamp. -/
def mkUserMessage (content : String) (attachments : List String) : Message :=
  { role := "user", content := content, attachments := attachments }

/-- `createStreamingMessage` (messageUtils.js), minus id and timestamp. -/
def mkStreamingMessage : Message :=
  { role := "assistant", content := "", isStreaming := true }

/-- The synchronous effect of `sendMessage` (useChat.js lines 671–687) on the
controller state, up to the point where the network request is issued: the
blank-input guard, then `setError(null)`, `setIsLoading(true)` and the
appending of the user message and the streaming placeholder.  The returned
`Bool` records whether execution went past the guard (i.e. whether a network
request is issued at all). -/
def sendMessageSync (content : String) (attachments : List String) (s : ChatState) :
    ChatState × Bool :=
  if jsTrim content = "" ∧ attachments = [] then (s, false)
  else
    ({ s with
        error := none
        isLoading := true
        messages := s.messages ++ [mkUserMessage content attachments, mkStreamingMessage] },
      true)

/-- `Array.prototype.findLastIndex`, as `Option Nat`
(`none` models the JS result `-1`). -/
def findLastIndexP (p : Message → Bool) : List Message → Option Nat
  | [] => none
  | m :: rest =>
    match findLastIndexP p rest with
    | some i => some (i + 1)
    | none => if p m then some 0 else none

/-- `regenerateLastResponse` (useChat.js lines 880–892): find the last user
message, truncate the list to everything strictly before it
(`messages.slice(0, lastUserIndex)`), then re-send its content and
attachments.  The `get?` fallback branch is unreachable: `findLastIndexP`
always returns an in-range index. -/
def regenerateLastResponse (s : ChatState) : ChatState :=
  match findLastIndexP (fun m => m.role == "user") s.messages with
  | none => s
  | some i =>
    match s.messages.get? i with
    | none => s
    | some lastUser =>
      (sendMessageSync lastUser.content lastUser.attachments
        { s with messages := s.messages.take i }).1

/-- `clearMessages` (useChat.js lines 663–666): `setMessages([])`,
`setError(null)`. -/
def clearMessages (s : ChatState) : ChatState :=
  { s with messages := [], error := none }

/-- The update `stopGeneration` applies to the active message. -/
def stopStreamingUpdate : MessageUpdate := { isStreaming := some false }

/-- `stopGeneration` (useChat.js lines 868–875): abort the client request,
`setIsLoading(false)`, and if a streaming message is active clear its
`isStreaming` flag.  `hasActiveStream` models `streamingMessageRef.current`
being non-null. -/
def stopGeneration (hasActiveStream : Bool) (s : ChatState) : ChatState :=
  let s1 := { s with isLoading := false }
  if hasActiveStream then
    { s1 with messages := updateLastMessageList stopStreamingUpdate s1.messages }
  else s1

/-- The `onError` callback of `sendMessage` (useChat.js lines 736–743):
`setError`, and mark the last message as a non-streaming error message. -/
def onErrorEffect (msg : String) (s : ChatState) : ChatState :=
  { s with
    error := some msg
    messages := updateLastMessageList
      { content := some ("Error: " ++ msg), isStreaming := some false, isError := some true }
      s.messages }

/-- The `catch` clause of `AIClient.streamChat` (aiClient.js lines 486–492):
an `AbortError` returns silently without invoking `onError`; any other error
is surfaced through `onError`. -/
def streamCatchEffect (errName errMessage : String) (s : ChatState) : ChatState :=
  if errName = "AbortError" then s
  else onErrorEffect errMessage s

/-- The operations of the conversation controller, viewed by their effect on
the controller state.  `send` covers the synchronous part of `sendMessage`,
`updateLast` the streaming-callback updates, `stop` carries whether a
streaming message is active. -/
inductive ChatOp where
  | add (m : Message)
  | updateLast (u : MessageUpdate)
  | clear
  | send (content : String) (attachments : List String)
  | stop (hasActiveStream : Bool)
  | regenerate
  deriving Repr, DecidableEq

def applyChatOp : ChatOp → ChatState → ChatState
  | .add m, s => { s with messages := s.messages ++ [m] }
  | .updateLast u, s => { s with messages := updateLastMessageList u s.messages }
  | .clear, s => clearMessages s
  | .send c a, s => (sendMessageSync c a s).1
  | .stop h, s => stopGeneration h s
  | .regenerate, s => regenerateLastResponse s

/-- `denseFrom i buf` holds when the buffer's keys are exactly the consecutive
integers `i, i+1, ...` — the shape `toolCallsBuffer` always has under the
alternate start/delta encoding. -/
def denseFrom : Nat → ToolBuffer → Bool
  | _, [] => true
  | i, (k, _) :: rest => k = i && denseFrom (i + 1) rest

/-! ## Helper lemmas -/

theorem bufferLookup_insert_self (buf : ToolBuffer) (i : Nat) (e : ToolEntry) :
    bufferLookup (bufferInsert buf i e) i = some e := by
  induction buf with
  | nil => simp [bufferInsert, bufferLookup]
  | cons kv rest ih =>
    obtain ⟨k, v⟩ := kv
    by_cases h1 : i < k
    · simp [bufferInsert, bufferLookup, h1]
    · by_cases h2 : i = k
      · simp [bufferInsert, bufferLookup, h1, h2]
      · simp [bufferInsert, bufferLookup, h1, h2, ih]

theorem processChunk_contentChunk (s : ParserState) (f : String) :
    processChunk s (contentChunk f) = .ok { s with contentBuffer := s.contentBuffer ++ f } := by
  by_cases hf : f = ""
  · subst hf
    simp [processChunk, contentChunk]
  · simp [processChunk, contentChunk, hf]

theorem runChunks_contentChunks (acc : String) (tb : ToolBuffer) (fr : String)
    (frags : List String) :
    runChunks ⟨acc, tb, fr⟩ (frags.map contentChunk) =
      .ok ⟨frags.foldl (· ++ ·) acc, tb, fr⟩ := by
  induction frags generalizing acc with
  | nil => simp [runChunks]
  | cons f rest ih =>
    simpa [runChunks, processChunk_contentChunk] using ih (acc ++ f)

theorem bufferInsert_at_end (buf : ToolBuffer) (i : Nat) (e : ToolEntry)
    (hdense : denseFrom i buf = true) :
    bufferInsert buf (i + buf.length) e = buf ++ [(i + buf.length, e)] := by
  induction buf generalizing i with
  | nil => simp [bufferInsert]
  | cons kv rest ih =>
    obtain ⟨k, v⟩ := kv
    simp only [denseFrom, Bool.and_eq_true, decide_eq_true_eq] at hdense
    obtain ⟨rfl, hrest⟩ := hdense
    have h1 : ¬ (k + (rest.length + 1) < k) := by omega
    have h2 : ¬ (k + (rest.length + 1) = k) := by omega
    have h3 : k + (rest.length + 1) = (k + 1) + rest.length := by omega
    simp only [List.length_cons, bufferInsert, h1, h2, if_false]
    rw [h3, ih (k + 1) hrest]
    simp

theorem bufferLookup_getLast (buf : ToolBuffer) (i n : Nat) (last : Nat × ToolEntry)
    (hdense : denseFrom i buf = true) (hlast : buf.getLast? = some last)
    (hlen : buf.length = n + 1) :
    bufferLookup buf (i + n) = some last.2 ∧ last.1 = i + n := by
  induction buf generalizing i n with
  | nil => simp at hlast
  | cons kv rest ih =>
    obtain ⟨k, v⟩ := kv
    simp only [denseFrom, Bool.and_eq_true, decide_eq_true_eq] at hdense
    obtain ⟨rfl, hrest⟩ := hdense
    cases rest with
    | nil =>
      simp only [List.getLast?] at hlast
      cases hlast
      have hn : n = 0 := by simpa using hlen
      subst hn
      simp [bufferLookup]
    | cons kv2 rest2 =>
      have hlast2 : (kv2 :: rest2).getLast? = some last := by
        simpa using hlast
      obtain ⟨m, hm⟩ : ∃ m, (kv2 :: rest2 : List (Nat × ToolEntry)).length = m + 1 :=
        ⟨rest2.length, by simp⟩
      have hn : n = m + 1 := by
        have := hlen
        simp only [List.length_cons] at this hm
        omega
      subst hn
      have hres := ih (k + 1) m hrest hlast2 hm
      have harith : k + (m + 1) = (k + 1) + m := by omega
      have hne2 : ¬ (k + (m + 1) = k) := by omega
      rw [harith]
      refine ⟨?_, hres.2⟩
      simpa [bufferLookup, harith ▸ hne2] using hres.1

theorem bufferInsert_at_last (buf : ToolBuffer) (i n : Nat) (e : ToolEntry)
    (hdense : denseFrom i buf = true) (hlen : buf.length = n + 1) :
    bufferInsert buf (i + n) e = buf.dropLast ++ [(i + n, e)] := by
  induction buf generalizing i n with
  | nil => simp at hlen
  | cons kv rest ih =>
    obtain ⟨k, v⟩ := kv
    simp only [denseFrom, Bool.and_eq_true, decide_eq_true_eq] at hdense
    obtain ⟨rfl, hrest⟩ := hdense
    cases rest with
    | nil =>
      have hn : n = 0 := by simpa using hlen
      subst hn
      simp [bufferInsert]
    | cons kv2 rest2 =>
      obtain ⟨m, hm⟩ : ∃ m, (kv2 :: rest2 : List (Nat × ToolEntry)).length = m + 1 :=
        ⟨rest2.length, by simp⟩
      have hn : n = m + 1 := by
        have := hlen
        simp only [List.length_cons] at this hm
        omega
      subst hn
      have h1 : ¬ (k + (m + 1) < k) := by omega
      have h2 : ¬ (k + (m + 1) = k) := by omega
      have harith : k + (m + 1) = (k + 1) + m := by omega
      have hres := ih (k + 1) m hrest hm
      rw [bufferInsert, if_neg h1, if_neg h2, harith, hres]
      simp

theorem dropLast_append_of_getLastSome {β : Type} (l : List β) (x : β)
    (h : l.getLast? = some x) : l.dropLast ++ [x] = l := by
  have hne : l ≠ [] := by rintro rfl; simp at h
  rw [List.getLast?_eq_getLast l hne] at h
  cases h
  exact List.dropLast_append_getLast hne

/-! ## Claim theorems -/

/-- Claim C3: for every finite sequence of chunks carrying only content
fragments, after processing them all in order `getResult().content` equals the
concatenation of the fragments in arrival order, for any fragment sizes and
counts including zero-length fragments; no fragment is dropped or reordered. -/
theorem streamParser_content_ordering (frags : List String) :
    (runChunks initParserState (frags.map contentChunk)).map
        (fun s => (getResult s).content) =
      .ok (concatAll frags) := by
  simp [initParserState, runChunks_contentChunks, getResult, concatAll, Except.map]

/-- Claim C4: for a sequence of indexed tool-call fragments delivered to the
same index, the stored function name changes only when the currently stored
name is empty, or the new fragment differs from it and is at least as long;
in particular the fragment sequence `["get_f", "get_file", "get"]` delivered
in that order to one index leaves `"get_file"` stored. -/
theorem streamParser_name_merge (buf : ToolBuffer) (tc : ToolCallFragment) (e : ToolEntry)
    (h : bufferLookup buf tc.index = some e) :
    (bufferLookup (applyToolCallFragment buf tc) tc.index).map ToolEntry.name =
      some (if tc.fname ≠ "" ∧
              (e.name = "" ∨ (tc.fname ≠ e.name ∧ e.name.length ≤ tc.fname.length))
            then tc.fname else e.name) ∧
    (bufferLookup
        (applyToolCallFragment
          (applyToolCallFragment (applyToolCallFragment [] ⟨0, "", "get_f", ""⟩)
            ⟨0, "", "get_file", ""⟩)
          ⟨0, "", "get", ""⟩) 0).map ToolEntry.name = some "get_file" := by
  constructor
  · unfold applyToolCallFragment
    rw [h]
    rw [bufferLookup_insert_self]
    simp only [Option.map_some]
    split
    · split
      · split <;> rfl
      · split <;> rfl
    · split
      · split <;> rfl
      · split <;> rfl
  · decide

/-- Witness for C4 at a concrete buffer: index 0 holds name `"ab"`, the new
fragment `"abc"` is different and longer, so the stored name becomes
`"abc"`. -/
theorem streamParser_name_merge_witness :
    bufferLookup [(0, ⟨"i", "function", "ab", ""⟩)] 0 =
        some ⟨"i", "function", "ab", ""⟩ ∧
    (bufferLookup
        (applyToolCallFragment [(0, ⟨"i", "function", "ab", ""⟩)] ⟨0, "", "abc", ""⟩)
        0).map ToolEntry.name = some "abc" := by
  refine ⟨rfl, ?_⟩
  have h := streamParser_name_merge [(0, ⟨"i", "function", "ab", ""⟩)]
    ⟨0, "", "abc", ""⟩ ⟨"i", "function", "ab", ""⟩ rfl
  rw [h.1]
  decide

/-- Claim C10: a `sendMessage` call whose content is empty or whitespace-only
and whose attachments list is empty returns before any state change: no
messages appended, loading and error flags untouched, and no network request
issued. -/
theorem sendMessage_blank_noop (content : String) (attachments : List String)
    (s : ChatState) (h1 : jsTrim content = "") (h2 : attachments = []) :
    sendMessageSync content attachments s = (s, false) := by
  simp [sendMessageSync, h1, h2]

/-- Claim C5: under the alternate start/delta encoding, a `tool_call_start`
chunk allocates a fresh buffer entry at the next sequential index, and a
subsequent `tool_input_delta` chunk appends its text to the arguments of the
most recently allocated entry only (every other entry is untouched:
`dropLast` is preserved verbatim), with `processChunk` succeeding (`.ok`) on
every such chunk. -/
theorem streamParser_alternate_encoding (s : ParserState) (st : ToolStart) (d : String)
    (hdense : denseFrom 0 s.toolCallsBuffer = true) :
    processChunk s (startChunk st) =
      .ok { s with toolCallsBuffer :=
              s.toolCallsBuffer ++
                [(s.toolCallsBuffer.length, ⟨st.id, "function", st.name, ""⟩)] } ∧
    (∀ last, s.toolCallsBuffer.getLast? = some last →
      processChunk s (deltaChunk d) =
        .ok { s with toolCallsBuffer :=
                s.toolCallsBuffer.dropLast ++
                  [(s.toolCallsBuffer.length - 1,
                    { last.2 with arguments := last.2.arguments ++ d })] }) := by
  constructor
  · have hins := bufferInsert_at_end s.toolCallsBuffer 0 ⟨st.id, "function", st.name, ""⟩ hdense
    simp only [Nat.zero_add] at hins
    simp [processChunk, startChunk, hins]
  · intro last hlast
    have hne : s.toolCallsBuffer ≠ [] := by
      rintro hnil
      rw [hnil] at hlast
      simp at hlast
    obtain ⟨n, hn⟩ : ∃ n, s.toolCallsBuffer.length = n + 1 := by
      cases hbuf : s.toolCallsBuffer with
      | nil => exact absurd hbuf hne
      | cons a t => exact ⟨t.length, by simp [hbuf]⟩
    have hlook := bufferLookup_getLast s.toolCallsBuffer 0 n last hdense hlast hn
    simp only [Nat.zero_add] at hlook
    have hins := bufferInsert_at_last s.toolCallsBuffer 0 n
      ({ last.2 with arguments := last.2.arguments ++ d }) hdense hn
    simp only [Nat.zero_add] at hins
    have hidx : s.toolCallsBuffer.length - 1 = n := by omega
    by_cases hd : d = ""
    · subst hd
      have hrw : ({ last.2 with arguments := last.2.arguments ++ "" } : ToolEntry) = last.2 := by
        simp
      have hfull := dropLast_append_of_getLastSome s.toolCallsBuffer last hlast
      have hlast_eta : (last.1, last.2) = last := rfl
      rw [hidx, hrw, ← hlook.2, hlast_eta, hfull]
      simp [processChunk, deltaChunk]
    · rw [hidx]
      simp only [processChunk, deltaChunk, hd, hn]
      simp [hidx, hlook.1, hins, hn, hd]

/-- Witness for C5 on a concrete dense one-entry buffer. -/
theorem streamParser_alternate_encoding_witness :
    denseFrom 0 [(0, ⟨"i1", "function", "t1", "\x7b\x22a\x22:"⟩)] = true ∧
    processChunk ⟨"", [(0, ⟨"i1", "function", "t1", "\x7b\x22a\x22:"⟩)], ""⟩ (deltaChunk "1\x7d") =
      .ok ⟨"", [(0, ⟨"i1", "function", "t1", "\x7b\x22a\x22:1\x7d"⟩)], ""⟩ := by
  constructor
  · decide
  · have h := (streamParser_alternate_encoding
      ⟨"", [(0, ⟨"i1", "function", "t1", "\x7b\x22a\x22:"⟩)], ""⟩ ⟨"x", "y"⟩ "1\x7d"
      (by decide)).2 (0, ⟨"i1", "function", "t1", "\x7b\x22a\x22:"⟩) rfl
    simpa using h

/-- Claim C2: `executeTool` is total (its type is `ToolResult ρ`, never an
exception): an unknown tool name yields `{success: false, error: "Unknown
tool: <name>"}`; a resolvable name whose routed panel instance is gone from
the store yields a structured `{success: false}` failure; a throwing executor
is caught and converted to `{success: false, error: message}`. -/
theorem executeTool_structured_failures {σ α ρ : Type}
    (registry : String → Option (PanelDefinition σ α ρ))
    (toolCache : String → Option EnrichedTool) (storePanels : List (Panel σ))
    (toolName : String) (args : α) :
    (toolCache toolName = none →
      executeTool registry toolCache storePanels toolName args =
        { success := false, error := some ("Unknown tool: " ++ toolName) }) ∧
    (∀ tool exec, toolCache toolName = some tool →
      resolveExec registry tool.panelTypeId = some exec →
      storePanels.find? (fun p => p.id = tool.panelId) = none →
      executeTool registry toolCache storePanels toolName args =
        { success := false, error := some ("Panel " ++ tool.panelId ++ " not found") }) ∧
    (∀ tool exec panel msg, toolCache toolName = some tool →
      resolveExec registry tool.panelTypeId = some exec →
      storePanels.find? (fun p => p.id = tool.panelId) = some panel →
      exec tool.originalName args panel.state = .error msg →
      executeTool registry toolCache storePanels toolName args =
        { success := false, error := some msg, toolName := some toolName }) := by
  refine ⟨fun h => ?_, fun tool exec h1 h2 h3 => ?_, fun tool exec panel msg h1 h2 h3 h4 => ?_⟩
  · simp [executeTool, h]
  · simp [executeTool, h1, h2, h3]
  · simp [executeTool, h1, h2, h3, h4]

/-- Concrete environment shared by witness instantiations: one panel type
`"ptype"` whose executor always throws `"boom"`, one cached tool
`"ptype_t"` routed to panel instance `"p1"`. -/
def egRegistry : String → Option (PanelDefinition Unit Unit Unit) :=
  fun t => if t = "ptype" then
    some { getMCPTools := none, executeMCPTool := some (fun _ _ _ => .error "boom") }
  else none

def egTool : EnrichedTool :=
  { name := "ptype_t", originalName := "t", description := "d"
    panelId := "p1", panelTypeId := "ptype", panelTitle := "P" }

def egCache : String → Option EnrichedTool :=
  fun n => if n = "ptype_t" then some egTool else none

def egPanel : Panel Unit :=
  { id := "p1", panelTypeId := "ptype", title := "P", state := () }

/-- Witness for C2: the three failure shapes at a concrete registry, cache
and store. -/
theorem executeTool_structured_failures_witness :
    egCache "zzz" = none ∧
    executeTool egRegistry egCache [egPanel] "zzz" () =
      { success := false, error := some "Unknown tool: zzz" } ∧
    executeTool egRegistry egCache [] "ptype_t" () =
      { success := false, error := some "Panel p1 not found" } ∧
    executeTool egRegistry egCache [egPanel] "ptype_t" () =
      { success := false, error := some "boom", toolName := some "ptype_t" } := by
  have h1 := (executeTool_structured_failures egRegistry egCache [egPanel] "zzz" ()).1
  have h2 := (executeTool_structured_failures egRegistry egCache [] "ptype_t" ()).2.1
  have h3 := (executeTool_structured_failures egRegistry egCache [egPanel] "ptype_t" ()).2.2
  refine ⟨rfl, h1 rfl, h2 egTool (fun _ _ _ => .error "boom") rfl rfl rfl, ?_⟩
  exact h3 egTool (fun _ _ _ => .error "boom") egPanel "boom" rfl rfl rfl rfl

/-- Claim C1 (refuted — code bug): `processToolCalls` feeds each call's raw
argument string to an unguarded `JSON.parse`, so one malformed-arguments call
makes the whole tool-execution phase throw (`Except.error`): no per-call
failure result is produced and the remaining calls are never executed.  This
holds even for the `handleToolCalls` path, which pre-parses safely into
`parsedArguments` but leaves the raw `arguments` string in place for
`processToolCalls` to re-parse. -/
theorem processToolCalls_throws_on_malformed {σ α ρ : Type}
    (parseJson : String → Except String α) (defaultArgs : α)
    (registry : String → Option (PanelDefinition σ α ρ))
    (toolCache : String → Option EnrichedTool) (storePanels : List (Panel σ))
    (badId badName badText err : String) (rest : List (ToolCallMsg α))
    (h : parseJson badText = .error err) :
    processToolCalls parseJson registry toolCache storePanels
        ((⟨badId, ⟨badName, .str badText, none⟩⟩ :: rest).map
          (preParseToolCall parseJson defaultArgs)) = .error err := by
  simp [processToolCalls, preParseToolCall, h]

/-- Witness for C1: with a parser that rejects `"\x7boops"`, a malformed first
call aborts the whole phase, while the well-formed second call alone would
have completed with a per-call record. -/
theorem processToolCalls_throws_on_malformed_witness :
    (fun _ : String => (.error "SyntaxError" : Except String Unit)) "\x7boops" =
        .error "SyntaxError" ∧
    processToolCalls (fun _ => .error "SyntaxError") egRegistry egCache [egPanel]
        (([⟨"c1", ⟨"ptype_t", .str "\x7boops", none⟩⟩,
           ⟨"c2", ⟨"ptype_t", .obj (), none⟩⟩] : List (ToolCallMsg Unit)).map
          (preParseToolCall (fun _ => .error "SyntaxError") ())) =
      .error "SyntaxError" ∧
    processToolCalls (fun _ => .error "SyntaxError") egRegistry egCache [egPanel]
        [⟨"c2", ⟨"ptype_t", .obj (), none⟩⟩] =
      .ok [⟨"c2", "ptype_t",
            { success := false, error := some "boom", toolName := some "ptype_t" }⟩] := by
  refine ⟨rfl, ?_, rfl⟩
  exact processToolCalls_throws_on_malformed (fun _ => .error "SyntaxError") ()
    egRegistry egCache [egPanel] "c1" "ptype_t" "\x7boops" "SyntaxError"
    [⟨"c2", ⟨"ptype_t", .obj (), none⟩⟩] rfl

/-- Claim C6: with an unchanged panel list and registry, two `collectTools`
calls yield structurally equal lists; every aggregated tool carries the
namespaced name `{panelTypeId}_{originalName}`, the routing metadata of the
contributing panel, and its original un-namespaced name; and a panel whose
`getMCPTools` throws contributes nothing while the other panels' tools are
still aggregated. -/
theorem collectTools_idempotent_namespaced {σ α ρ : Type}
    (registry : String → Option (PanelDefinition σ α ρ)) (panels : List (Panel σ)) :
    collectTools registry panels = collectTools registry panels ∧
    (∀ t ∈ collectTools registry panels, ∃ p ∈ panels,
      t.name = p.panelTypeId ++ "_" ++ t.originalName ∧
      t.panelId = p.id ∧ t.panelTypeId = p.panelTypeId ∧ t.panelTitle = p.title) ∧
    (∀ (pre post : List (Panel σ)) (p : Panel σ) d f msg,
      registry p.panelTypeId = some d → d.getMCPTools = some f →
      f p.state = .error msg →
      collectTools registry (pre ++ p :: post) = collectTools registry (pre ++ post)) := by
  refine ⟨rfl, ?_, ?_⟩
  · intro t ht
    rw [collectTools, List.mem_flatMap] at ht
    obtain ⟨p, hp, hmem⟩ := ht
    refine ⟨p, hp, ?_⟩
    rw [panelTools] at hmem
    rcases hreg : registry p.panelTypeId with _ | d
    · simp only [hreg] at hmem
      simp at hmem
    · simp only [hreg] at hmem
      rcases hget : d.getMCPTools with _ | f
      · simp only [hget] at hmem
        simp at hmem
      · simp only [hget] at hmem
        rcases hcall : f p.state with msg2 | tools
        · simp only [hcall] at hmem
          simp at hmem
        · simp only [hcall] at hmem
          rw [List.mem_map] at hmem
          obtain ⟨tool, _, rfl⟩ := hmem
          exact ⟨rfl, rfl, rfl, rfl⟩
  · intro pre post p d f msg h1 h2 h3
    have hp : panelTools registry p = [] := by
      rw [panelTools]
      simp only [h1, h2, h3]
    simp [collectTools, hp]

/-- Witness for C6 with one throwing panel between two working ones. -/
def egRegistry2 : String → Option (PanelDefinition Unit Unit Unit) :=
  fun t =>
    if t = "good" then
      some { getMCPTools := some (fun _ => .ok [⟨"t", "d"⟩]), executeMCPTool := none }
    else if t = "bad" then
      some { getMCPTools := some (fun _ => .error "uncaught"), executeMCPTool := none }
    else none

def egGoodPanel : Panel Unit := { id := "g1", panelTypeId := "good", title := "G", state := () }

def egBadPanel : Panel Unit := { id := "b1", panelTypeId := "bad", title := "B", state := () }

theorem collectTools_idempotent_namespaced_witness :
    egRegistry2 "bad" =
      some { getMCPTools := some (fun _ => .error "uncaught"), executeMCPTool := none } ∧
    collectTools egRegistry2 [egGoodPanel, egBadPanel, egGoodPanel] =
      collectTools egRegistry2 [egGoodPanel, egGoodPanel] ∧
    collectTools egRegistry2 [egGoodPanel, egGoodPanel] =
      [⟨"good_t", "t", "d", "g1", "good", "G"⟩, ⟨"good_t", "t", "d", "g1", "good", "G"⟩] := by
  refine ⟨rfl, ?_, rfl⟩
  exact (collectTools_idempotent_namespaced egRegistry2 []).2.2 [egGoodPanel]
    [egGoodPanel] egBadPanel _ (fun _ => .error "uncaught") "uncaught" rfl rfl rfl

theorem jsSlice_length_le (s : String) (n : Nat) : (jsSlice s n).length ≤ n :=
  List.length_take_le n s.data

/-- Claim C9: the rendered system prompt truncates each observed panel's
context dump independently to a hard 2000-character cap — string data as a
truncated string dump, object data as a truncated stringify dump — and the
lines rendered for one panel are a function of that panel alone, so a panel
with oversized data cannot reduce the characters rendered for any other
panel. -/
theorem systemPrompt_per_panel_truncation {γ : Type} (stringify : γ → String)
    (a b : List (ObservedPanel γ)) (p : ObservedPanel γ) :
    (∀ ty str0, p.context = some ⟨ty, .strData str0⟩ → ty ≠ "empty" →
      panelContextBody stringify p.context = ["```", jsSlice str0 2000, "```"]) ∧
    (∀ ty j, p.context = some ⟨ty, .objData j⟩ → ty ≠ "empty" →
      panelContextBody stringify p.context = ["```json", jsSlice (stringify j) 2000, "```"]) ∧
    (∀ s ∈ panelContextBody stringify p.context, s.length ≤ 2000) ∧
    (a ++ p :: b).flatMap (observedPanelParts stringify) =
      a.flatMap (observedPanelParts stringify) ++ observedPanelParts stringify p ++
        b.flatMap (observedPanelParts stringify) := by
  refine ⟨fun ty str0 h hty => ?_, fun ty j h hty => ?_, fun s hs => ?_, ?_⟩
  · rw [h]; simp [panelContextBody, hty]
  · rw [h]; simp [panelContextBody, hty]
  · rcases hc : p.context with _ | ⟨ty, cdata⟩ <;> rw [hc] at hs
    · simp [panelContextBody] at hs
    · rw [panelContextBody] at hs
      by_cases hty : ty = "empty"
      · simp only [hty, if_pos rfl] at hs
        simp at hs
        subst hs
        decide
      · simp only [if_neg (by simpa using hty)] at hs
        rcases cdata with str0 | j | _
        · simp at hs
          rcases hs with h3 | h3 | h3 <;> subst h3
          · decide
          · exact jsSlice_length_le str0 2000
          · decide
        · simp at hs
          rcases hs with h3 | h3 | h3 <;> subst h3
          · decide
          · exact jsSlice_length_le (stringify j) 2000
          · decide
        · simp at hs
  · simp [List.flatMap_append, List.flatMap_cons, List.append_assoc]

/-- Witness for C9 at a concrete observed panel with string context data. -/
def egObs : ObservedPanel Unit :=
  { panelId := "p1", panelType := "notes", panelTitle := "N"
    context := some ⟨"text", .strData "hello"⟩ }

theorem systemPrompt_per_panel_truncation_witness :
    panelContextBody (fun _ : Unit => "st") egObs.context =
      ["```", jsSlice "hello" 2000, "```"] ∧
    (jsSlice "hello" 2000).length ≤ 2000 ∧
    ([] ++ egObs :: []).flatMap (observedPanelParts (fun _ : Unit => "st")) =
      [] ++ observedPanelParts (fun _ : Unit => "st") egObs ++ [] := by
  have h := systemPrompt_per_panel_truncation (fun _ : Unit => "st") [] [] egObs
  refine ⟨h.1 "text" "hello" rfl (by decide), ?_, ?_⟩
  · exact h.2.2.1 (jsSlice "hello" 2000) (by rw [h.1 "text" "hello" rfl (by decide)]; simp)
  · simp only [List.nil_append, List.append_nil] at h ⊢
    exact h.2.2.2

theorem updateLastMessageList_append_singleton (u : MessageUpdate) (pre : List Message)
    (m : Message) :
    updateLastMessageList u (pre ++ [m]) = pre ++ [applyMessageUpdate m u] := by
  induction pre with
  | nil => rfl
  | cons x rest ih =>
    rcases hsplit : rest ++ [m] with _ | ⟨y, t⟩
    · exact absurd hsplit (by simp)
    · simp only [List.cons_append, hsplit, updateLastMessageList]
      rw [← hsplit, ih]

theorem updateLastMessageList_length (u : MessageUpdate) (l : List Message) :
    (updateLastMessageList u l).length = l.length := by
  induction l with
  | nil => rfl
  | cons x rest ih =>
    cases rest with
    | nil => rfl
    | cons y t => simp only [updateLastMessageList, List.length_cons, ih]

/-- Claim C8: a stream stopped mid-flight via `stopGeneration` is not
surfaced as an error: the `AbortError` branch of the client is a no-op for
the consumer, the active message's `isStreaming` becomes `false` while its
`isError` stays `false`, no message is appended, the loading flag clears and
the stored error is untouched. -/
theorem stopGeneration_clean_termination (pre : List Message) (m : Message) (em : String)
    (s : ChatState) (hmsg : s.messages = pre ++ [m]) (_hstream : m.isStreaming = true)
    (herr : m.isError = false) :
    streamCatchEffect "AbortError" em s = s ∧
    (stopGeneration true s).messages = pre ++ [{ m with isStreaming := false }] ∧
    ({ m with isStreaming := false } : Message).isError = false ∧
    (stopGeneration true s).messages.length = s.messages.length ∧
    (stopGeneration true s).isLoading = false ∧
    (stopGeneration true s).error = s.error := by
  refine ⟨by simp [streamCatchEffect], ?_, by simpa using herr, ?_, rfl, rfl⟩
  · simp only [stopGeneration, if_pos rfl, hmsg, updateLastMessageList_append_singleton]
    simp [applyMessageUpdate, stopStreamingUpdate]
  · simp [stopGeneration, updateLastMessageList_length]

/-- Witness for C8 on a two-message conversation with an active streaming
placeholder. -/
theorem stopGeneration_clean_termination_witness :
    (⟨[mkUserMessage "hi" [], mkStreamingMessage], true, none⟩ : ChatState).messages =
      [mkUserMessage "hi" []] ++ [mkStreamingMessage] ∧
    mkStreamingMessage.isStreaming = true ∧
    mkStreamingMessage.isError = false ∧
    stopGeneration true ⟨[mkUserMessage "hi" [], mkStreamingMessage], true, none⟩ =
      ⟨[mkUserMessage "hi" [], { mkStreamingMessage with isStreaming := false }], false, none⟩ := by
  have h := stopGeneration_clean_termination [mkUserMessage "hi" []] mkStreamingMessage
    "err" ⟨[mkUserMessage "hi" [], mkStreamingMessage], true, none⟩ rfl rfl rfl
  refine ⟨rfl, rfl, rfl, ?_⟩
  have hmsg := h.2.1
  have hload := h.2.2.2.2.1
  have herr2 := h.2.2.2.2.2
  cases hst : stopGeneration true ⟨[mkUserMessage "hi" [], mkStreamingMessage], true, none⟩
  rw [hst] at hmsg hload herr2
  simp only at hmsg hload herr2
  rw [hmsg, hload, herr2]
  rfl

theorem findLastIndexP_none (p : Message → Bool) (l : List Message)
    (h : findLastIndexP p l = none) : ∀ v ∈ l, p v = false := by
  induction l with
  | nil => simp
  | cons m rest ih =>
    intro v hv
    simp only [findLastIndexP] at h
    rcases hfind : findLastIndexP p rest with _ | j
    · simp only [hfind] at h
      by_cases hpm : p m
      · rw [if_pos hpm] at h
        cases h
      · rcases List.mem_cons.mp hv with rfl | hv2
        · simpa using hpm
        · exact ih hfind v hv2
    · simp only [hfind] at h
      cases h

theorem findLastIndexP_spec (p : Message → Bool) (l : List Message) (i : Nat)
    (h : findLastIndexP p l = some i) :
    ∃ u, l.get? i = some u ∧ p u = true ∧
      (∀ j v, i < j → l.get? j = some v → p v = false) := by
  induction l generalizing i with
  | nil => simp [findLastIndexP] at h
  | cons m rest ih =>
    simp only [findLastIndexP] at h
    rcases hfind : findLastIndexP p rest with _ | k
    · simp only [hfind] at h
      by_cases hpm : p m
      · rw [if_pos hpm] at h
        cases h
        refine ⟨m, rfl, hpm, ?_⟩
        intro j v hj hget
        cases j with
        | zero => omega
        | succ j2 =>
          rw [List.get?_cons_succ] at hget
          exact findLastIndexP_none p rest hfind v (List.get?_mem hget)
      · rw [if_neg hpm] at h
        cases h
    · simp only [hfind] at h
      cases h
      obtain ⟨u, hget, hpu, hmax⟩ := ih k hfind
      refine ⟨u, by simpa using hget, hpu, ?_⟩
      intro j v hj hgetj
      cases j with
      | zero => omega
      | succ j2 =>
        rw [List.get?_cons_succ] at hgetj
        exact hmax j2 v (by omega) hgetj

/-- Counterexample to C7 as stated: `clearMessages` is a controller operation
other than regeneration that removes messages — on a one-message state it
shrinks the list to zero. -/
theorem only_regenerate_removes_counterexample :
    ¬ (∀ (op : ChatOp) (s : ChatState), op ≠ ChatOp.regenerate →
        s.messages.length ≤ (applyChatOp op s).messages.length) := by
  intro hclaim
  have h := hclaim .clear ⟨[mkStreamingMessage], false, none⟩ (by decide)
  simp [applyChatOp, clearMessages] at h

/-- Claim C7 (amended): `regenerateLastResponse` truncates the message list
back to, and not including, the last user message and re-invokes the send
step with that message's original content and attachments; and apart from
`clearMessages` (which resets the list to empty), regeneration is the only
controller operation that removes messages — every other operation never
shrinks the list. -/
theorem regenerate_truncates_to_last_user (s : ChatState) (i : Nat) (u : Message)
    (hfind : findLastIndexP (fun m => m.role == "user") s.messages = some i)
    (hget : s.messages.get? i = some u) :
    u.role = "user" ∧
    (∀ j v, i < j → s.messages.get? j = some v → v.role ≠ "user") ∧
    regenerateLastResponse s =
      (sendMessageSync u.content u.attachments { s with messages := s.messages.take i }).1 ∧
    (∀ (op : ChatOp) (t : ChatState), op ≠ ChatOp.regenerate → op ≠ ChatOp.clear →
      t.messages.length ≤ (applyChatOp op t).messages.length) := by
  obtain ⟨u2, hget2, hpu, hmax⟩ := findLastIndexP_spec _ s.messages i hfind
  rw [hget] at hget2
  cases hget2
  refine ⟨by simpa using hpu, ?_, ?_, ?_⟩
  · intro j v hj hgetj
    have := hmax j v hj hgetj
    simpa using this
  · rw [regenerateLastResponse]
    simp only [hfind, hget]
  · intro op t hop1 hop2
    cases op with
    | add m => simp [applyChatOp]
    | updateLast u3 => simp [applyChatOp, updateLastMessageList_length]
    | clear => exact absurd rfl hop2
    | send c a =>
      rw [applyChatOp, sendMessageSync]
      split
      · simp
      · simp
    | stop hact =>
      cases hact <;> simp [applyChatOp, stopGeneration, updateLastMessageList_length]
    | regenerate => exact absurd rfl hop1

/-- Witness for C7: on `[user "hi", assistant placeholder]` regeneration
truncates to the empty list and re-sends `"hi"`, rebuilding the user message
and a fresh placeholder. -/
theorem regenerate_truncates_to_last_user_witness :
    findLastIndexP (fun m => m.role == "user")
        [mkUserMessage "hi" [], mkStreamingMessage] = some 0 ∧
    ([mkUserMessage "hi" [], mkStreamingMessage].get? 0 = some (mkUserMessage "hi" [])) ∧
    regenerateLastResponse ⟨[mkUserMessage "hi" [], mkStreamingMessage], false, none⟩ =
      ⟨[mkUserMessage "hi" [], mkStreamingMessage], true, none⟩ := by
  refine ⟨by decide, by decide, ?_⟩
  have h := (regenerate_truncates_to_last_user
    ⟨[mkUserMessage "hi" [], mkStreamingMessage], false, none⟩ 0 (mkUserMessage "hi" [])
    (by decide) (by decide)).2.2.1
  rw [h]
  rfl

/-- Witness for C10: whitespace-only content and no attachments leave a
one-message state untouched. -/
theorem sendMessage_blank_noop_witness :
    jsTrim "  \t " = "" ∧
    sendMessageSync "  \t " [] ⟨[mkUserMessage "hi" []], false, none⟩ =
      (⟨[mkUserMessage "hi" []], false, none⟩, false) :=
  ⟨by decide, sendMessage_blank_noop "  \t " [] _ (by decide) rfl⟩

end GraphStudio
